import Mathlib

/-! Verification development for the dcwatch repository.

The data model is taken from `web/src/types.ts`; the formatting helpers,
trade-list filter, mock-trade construction and name-slug round trip are taken
from the React sources.  The analytics engine (return calculator, signal
detector, leaderboard aggregator, backtest simulator) lives in the Python
scraper, which is not under `src/`; those parts are modelled from the spec and
are marked as such in their doc comments.  JS numbers are modelled as `ℚ`,
optional values as `Option`, and JS strings as `String` or `List Char`. -/

/-- Transaction kind, from the closed string-literal union `Trade.tx_type`
in web/src/types.ts. -/
inductive TxType
  | purchase
  | sale_full
  | sale_partial
  | exchange

deriving instance DecidableEq for TxType

/-- Chamber, from the closed union `"house" | "senate"` in web/src/types.ts. -/
inductive Chamber
  | house
  | senate

deriving instance DecidableEq for Chamber

/-- Asset type, from the closed union in web/src/types.ts. -/
inductive AssetType
  | stock
  | option
  | etf
  | bond
  | other

deriving instance DecidableEq for AssetType

/-- Trade record, from the `Trade` interface in web/src/types.ts.  `party` is
an open `string` there, not a closed union; the price-enrichment fields
`price_at_trade`, `current_price` and `est_return` are optional. -/
structure Trade where
  id : String
  politician : String
  party : String
  state : String
  chamber : Chamber
  ticker : String
  asset_description : String
  asset_type : AssetType
  tx_type : TxType
  tx_date : String
  disclosure_date : String
  amount_low : ℚ
  amount_high : ℚ
  owner : String
  filing_url : String
  is_amended : Bool
  days_late : ℤ
  price_at_trade : Option ℚ
  current_price : Option ℚ
  est_return : Option ℚ

deriving instance DecidableEq for Trade

/-- Direction of a mock trade, from the `"buy" | "sell"` union in
web/src/types.ts. -/
inductive MockDirection
  | buy
  | sell

deriving instance DecidableEq for MockDirection

/-- MockTrade record from web/src/types.ts: `entry_price` and `current_price`
are plain numbers, not optional. -/
structure MockTrade where
  id : String
  trade_id : String
  ticker : String
  politician : String
  tx_type : MockDirection
  entry_price : ℚ
  current_price : ℚ
  created_at : String
  notes : String

deriving instance DecidableEq for MockTrade

/-- The record built by `addMockTrade` in the useMockTrades hook.  The
generated id and timestamp are passed in as parameters.  Mirrors
`entry_price: trade.price_at_trade ?? 0` and
`current_price: trade.current_price ?? trade.price_at_trade ?? 0`. -/
def mkMockTrade (trade : Trade) (direction : MockDirection)
    (notes newId createdAt : String) : MockTrade :=
  { id := newId
    trade_id := trade.id
    ticker := trade.ticker
    politician := trade.politician
    tx_type := direction
    entry_price := trade.price_at_trade.getD 0
    current_price := (trade.current_price.orElse fun _ => trade.price_at_trade).getD 0
    created_at := createdAt
    notes := notes }

/-- Modelled from the spec: §4.1 Return Calculator (the price-enrichment code
is in the Python scraper, not under src/).  Sign per trade direction: a sale
is modelled as the inverse of a purchase's price movement. -/
def directionSign : TxType → ℚ
  | TxType.purchase => 1
  | TxType.sale_full => -1
  | TxType.sale_partial => -1
  | TxType.exchange => 1

/-- Modelled from the spec: §4.1 Return Calculator.  Returns are computed as
`(end/start − 1) × 100` with the direction sign applied; `missing` (`none`)
when either price is unavailable or the start price is zero. -/
def estimated_return (price_at_entry price_now : Option ℚ) (direction : TxType) : Option ℚ :=
  match price_at_entry, price_now with
  | some e, some n => if e = 0 then none else some (directionSign direction * ((n / e - 1) * 100))
  | _, _ => none

/-- Transaction-type filter options of the TradeList component
(`"all" | "buy" | "sell"`). -/
inductive TxFilterOpt
  | all
  | buy
  | sell

deriving instance DecidableEq for TxFilterOpt

/-- The transaction-type filter branch of TradeList: with `"buy"` keep
purchases, otherwise (`"sell"`) keep full and partial sales; with `"all"` the
filter is skipped. -/
def filterTx (txFilter : TxFilterOpt) (trades : List Trade) : List Trade :=
  if txFilter ≠ TxFilterOpt.all then
    if txFilter = TxFilterOpt.buy then
      trades.filter fun t => decide (t.tx_type = TxType.purchase)
    else
      trades.filter fun t => decide (t.tx_type = TxType.sale_full ∨ t.tx_type = TxType.sale_partial)
  else trades

/-- One-decimal rendering used by `formatAmount` (JS `val.toFixed(1)` on a
positive value): round to the nearest tenth and print one digit after the
point. -/
def fmtFixed1 (val : ℚ) : String :=
  toString (round (val * 10) / 10 : ℤ) ++ "." ++ toString (round (val * 10) % 10 : ℤ)

/-- Rendering of amounts below 1000 (`n.toLocaleString()`): below 1000 no
digit grouping occurs, so this is the plain decimal rendering; disclosed
amounts are whole dollars, rendered without a fraction. -/
def localeString (n : ℚ) : String :=
  if n.den = 1 then toString n.num else toString n

/-- The `fmt` helper inside `formatAmount` (utils/format.ts): `$…M` for values
at least one million, `$…K` for values at least one thousand, with one decimal
exactly when the scaled value is not whole (`val % 1 === 0` test). -/
def fmtAmount (n : ℚ) : String :=
  if 1000000 ≤ n then
    (if (n / 1000000).den = 1 then "$" ++ toString (n / 1000000).num ++ "M"
     else "$" ++ fmtFixed1 (n / 1000000) ++ "M")
  else if 1000 ≤ n then
    (if (n / 1000).den = 1 then "$" ++ toString (n / 1000).num ++ "K"
     else "$" ++ fmtFixed1 (n / 1000) ++ "K")
  else "$" ++ localeString n

/-- `formatAmount` from utils/format.ts: collapse a degenerate band to a
single amount, otherwise join both ends with a dash. -/
def formatAmount (low high : ℚ) : String :=
  if low = high then fmtAmount low else fmtAmount low ++ " - " ++ fmtAmount high

/-- JS `toUpperCase()` restricted to basic latin letters: uppercase every
character (identical to core `String.toUpper`, written through the character
list so that it evaluates structurally). -/
def toUpperStr (s : String) : String :=
  String.mk (s.data.map Char.toUpper)

/-- `partyLabel` from utils/format.ts: an open-string domain with a default
branch returning the input unchanged. -/
def partyLabel (party : String) : String :=
  if toUpperStr party = "D" then "Democrat"
  else if toUpperStr party = "R" then "Republican"
  else if toUpperStr party = "I" then "Independent"
  else party

/-- `txTypeLabel` from utils/format.ts: the parameter is an open `string`
with a default branch returning the input unchanged. -/
def txTypeLabel (ty : String) : String :=
  if ty = "purchase" then "Buy"
  else if ty = "sale_full" then "Sell (Full)"
  else if ty = "sale_partial" then "Sell (Partial)"
  else if ty = "exchange" then "Exchange"
  else ty

/-- The string value of a `Trade.tx_type` union member, as written in
web/src/types.ts. -/
def txTypeStr : TxType → String
  | TxType.purchase => "purchase"
  | TxType.sale_full => "sale_full"
  | TxType.sale_partial => "sale_partial"
  | TxType.exchange => "exchange"

/-- Chamber display branch from the TradeDetail page
(`trade.chamber === "house" ? "House" : "Senate"`). -/
def chamberLabel : Chamber → String
  | Chamber.house => "House"
  | Chamber.senate => "Senate"

/-- Code point 32, the space character. -/
def spaceChar : Char := Char.ofNat 32

/-- Code point 45, the hyphen character. -/
def dashChar : Char := Char.ofNat 45

/-- The ASCII part of the JS regex class `\s`: space, tab, carriage return,
line feed (code points 32, 9, 13, 10). -/
def isWsChar (c : Char) : Bool :=
  decide (c.toNat = 32) || decide (c.toNat = 9) || decide (c.toNat = 13) || decide (c.toNat = 10)

/-- Structural worker for `collapseWs`: the flag records whether the previous
character was whitespace (in which case the current run's hyphen has already
been emitted). -/
def collapseWsAux : Bool → List Char → List Char
  | _, [] => []
  | inWs, c :: cs =>
    if isWsChar c then
      (if inWs then collapseWsAux true cs else dashChar :: collapseWsAux true cs)
    else c :: collapseWsAux false cs

/-- JS `replace(/\s+/g, "-")` on a character list: each maximal run of
whitespace characters becomes a single hyphen. -/
def collapseWs (l : List Char) : List Char := collapseWsAux false l

/-- JS `toLowerCase()` on a character list (basic latin letters). -/
def lowerStr (l : List Char) : List Char := l.map Char.toLower

/-- `nameSlug` from the TradeList component:
`name.toLowerCase().replace(/\s+/g, "-")`. -/
def nameSlug (name : List Char) : List Char := collapseWs (lowerStr name)

/-- The slug inversion inside `usePoliticianTrades`: lowercase, then replace
every hyphen with a space (the global hyphen-to-space replace). -/
def normalizeSlug (name : List Char) : List Char :=
  (lowerStr name).map fun c => if c = dashChar then spaceChar else c

/-- The filter of `usePoliticianTrades` (useTradeData.ts): keep the trades
whose politician, lowercased, equals the de-slugged name. -/
def usePoliticianTrades (trades : List Trade) (name : List Char) : List Trade :=
  trades.filter fun t => decide (lowerStr t.politician.data = normalizeSlug name)

/-- Whether the first character of a list is whitespace. -/
def headIsWs : List Char → Bool
  | [] => false
  | c :: _ => isWsChar c

/-- Names whose whitespace is tame: every whitespace character is a plain
space and no two adjacent characters are both whitespace. -/
def goodWsB : List Char → Bool
  | [] => true
  | c :: cs => (!(isWsChar c) || (decide (c = spaceChar) && !(headIsWs cs))) && goodWsB cs

/-- Modelled from the spec: §4.2 Signal Detector (the clustering code is in
the Python scraper, not under src/).  The slice of a trade the detector
reads: trader name, party, and transaction date in days. -/
@[ext]
structure CTrade where
  politician : List Char
  party : List Char
  tx_date : ℤ

deriving instance DecidableEq for CTrade

/-- Lexicographic comparison of character lists (total, structural). -/
def listLEb : List Char → List Char → Bool
  | [], _ => true
  | _ :: _, [] => false
  | c :: cs, d :: ds => if c < d then true else if d < c then false else listLEb cs ds

/-- Strict lexicographic comparison of character lists. -/
def listLTb : List Char → List Char → Bool
  | [], [] => false
  | [], _ :: _ => true
  | _ :: _, [] => false
  | c :: cs, d :: ds => if c < d then true else if d < c then false else listLTb cs ds

/-- Modelled from the spec: §5 determinism — the detector canonicalizes each
ticker group by an explicit stable key (transaction date, then trader name,
then party) before scanning. -/
def ctLEb (a b : CTrade) : Bool :=
  if a.tx_date < b.tx_date then true
  else if b.tx_date < a.tx_date then false
  else if listLEb a.politician b.politician then
    (if listLEb b.politician a.politician then listLEb a.party b.party else true)
  else false

/-- The sort key of the detector as a relation. -/
def ctle (a b : CTrade) : Prop := ctLEb a b = true

instance : DecidableRel ctle := fun a b => by
  unfold ctle
  infer_instance

/-- Canonical date order of one ticker's trades, used by the detector. -/
def sortTrades (l : List CTrade) : List CTrade := List.insertionSort ctle l

/-- Modelled from the spec: §4.2 — the sliding-window fold over the sorted
group.  Arguments: window size, date of the current cluster's earliest trade,
current open cluster in reverse order, remaining trades.  A trade within
`window` days of the cluster start extends the cluster; otherwise the cluster
is closed and a new one starts. -/
def clusterAux (window : ℤ) : ℤ → List CTrade → List CTrade → List (List CTrade)
  | _, cur, [] => [cur.reverse]
  | start, cur, t :: ts =>
    if t.tx_date - start ≤ window then clusterAux window start (t :: cur) ts
    else cur.reverse :: clusterAux window t.tx_date [t] ts

/-- Modelled from the spec: §4.2 — partition a date-sorted ticker group into
consecutive clusters. -/
def clusterScan (window : ℤ) (l : List CTrade) : List (List CTrade) :=
  match l with
  | [] => []
  | t :: ts => clusterAux window t.tx_date [t] ts

/-- Number of distinct traders in a cluster (duplicate trades by the same
trader count once). -/
def distinctTraders (c : List CTrade) : ℕ :=
  ((c.map fun t => t.politician).dedup).length

/-- Modelled from the spec: §4.2 — a cluster qualifies as a Signal only if it
contains at least 3 distinct traders. -/
def detectSignals (window : ℤ) (l : List CTrade) : List (List CTrade) :=
  (clusterScan window (sortTrades l)).filter fun c => decide (3 ≤ distinctTraders c)

/-- Horizon of the backtest, the `Window` union `"current" | "30d" | "90d"`
of the Backtest page. -/
inductive Horizon
  | current
  | d30
  | d90

deriving instance DecidableEq for Horizon

/-- BacktestTrade record from web/src/types.ts: every price and per-horizon
return/alpha field is independently nullable. -/
structure BacktestTrade where
  id : String
  politician : String
  party : String
  ticker : String
  asset_description : String
  tx_date : String
  disclosure_date : String
  days_late : ℤ
  amount_low : ℚ
  amount_high : ℚ
  price_at_trade : Option ℚ
  price_at_disclosure : Option ℚ
  price_30d : Option ℚ
  price_90d : Option ℚ
  current_price : Option ℚ
  politician_return : Option ℚ
  copycat_return_current : Option ℚ
  copycat_return_30d : Option ℚ
  copycat_return_90d : Option ℚ
  spy_return_current : Option ℚ
  spy_return_30d : Option ℚ
  spy_return_90d : Option ℚ
  alpha_current : Option ℚ
  alpha_30d : Option ℚ
  alpha_90d : Option ℚ
  timing_cost : Option ℚ

deriving instance DecidableEq for BacktestTrade

/-- `getCopycatReturn` from the Backtest page: select the copycat return for
a horizon. -/
def getCopycatReturn (t : BacktestTrade) : Horizon → Option ℚ
  | Horizon.current => t.copycat_return_current
  | Horizon.d30 => t.copycat_return_30d
  | Horizon.d90 => t.copycat_return_90d

/-- `getAlpha` from the Backtest page: select the alpha for a horizon. -/
def getAlpha (t : BacktestTrade) : Horizon → Option ℚ
  | Horizon.current => t.alpha_current
  | Horizon.d30 => t.alpha_30d
  | Horizon.d90 => t.alpha_90d

/-- Modelled from the spec: §4.1 — `(end/start − 1) × 100`, `missing` when
either price is unavailable or the start price is zero. -/
def priceReturn (pstart pend : Option ℚ) : Option ℚ :=
  match pstart, pend with
  | some s, some e => if s = 0 then none else some ((e / s - 1) * 100)
  | _, _ => none

/-- Lift a binary operation over optional values, `missing` if either side is
missing. -/
def omap2 (f : ℚ → ℚ → ℚ) : Option ℚ → Option ℚ → Option ℚ
  | some a, some b => some (f a b)
  | _, _ => none

/-- Modelled from the spec: §4.6 — the raw price data handed to the backtest
simulator for one trade: trade identity plus the stock and benchmark prices
at the required dates (each possibly missing). -/
structure RawBT where
  id : String
  politician : String
  party : String
  ticker : String
  asset_description : String
  tx_date : String
  disclosure_date : String
  days_late : ℤ
  amount_low : ℚ
  amount_high : ℚ
  price_at_trade : Option ℚ
  price_at_disclosure : Option ℚ
  price_30d : Option ℚ
  price_90d : Option ℚ
  current_price : Option ℚ
  spy_at_disclosure : Option ℚ
  spy_30d : Option ℚ
  spy_90d : Option ℚ
  spy_current : Option ℚ

deriving instance DecidableEq for RawBT

/-- Modelled from the spec: §4.6 — build one `BacktestTrade`: copycat returns
are anchored at the disclosure-date price, the benchmark returns at the
benchmark's disclosure-date price, alpha is copycat minus benchmark per
horizon, and `timing_cost` is the trader's own return minus the copycat
hold-to-now return; every field is missing when a required price is. -/
def mkBacktestTrade (r : RawBT) : BacktestTrade :=
  { id := r.id
    politician := r.politician
    party := r.party
    ticker := r.ticker
    asset_description := r.asset_description
    tx_date := r.tx_date
    disclosure_date := r.disclosure_date
    days_late := r.days_late
    amount_low := r.amount_low
    amount_high := r.amount_high
    price_at_trade := r.price_at_trade
    price_at_disclosure := r.price_at_disclosure
    price_30d := r.price_30d
    price_90d := r.price_90d
    current_price := r.current_price
    politician_return := priceReturn r.price_at_trade r.current_price
    copycat_return_current := priceReturn r.price_at_disclosure r.current_price
    copycat_return_30d := priceReturn r.price_at_disclosure r.price_30d
    copycat_return_90d := priceReturn r.price_at_disclosure r.price_90d
    spy_return_current := priceReturn r.spy_at_disclosure r.spy_current
    spy_return_30d := priceReturn r.spy_at_disclosure r.spy_30d
    spy_return_90d := priceReturn r.spy_at_disclosure r.spy_90d
    alpha_current := omap2 (fun a b => a - b) (priceReturn r.price_at_disclosure r.current_price) (priceReturn r.spy_at_disclosure r.spy_current)
    alpha_30d := omap2 (fun a b => a - b) (priceReturn r.price_at_disclosure r.price_30d) (priceReturn r.spy_at_disclosure r.spy_30d)
    alpha_90d := omap2 (fun a b => a - b) (priceReturn r.price_at_disclosure r.price_90d) (priceReturn r.spy_at_disclosure r.spy_90d)
    timing_cost := omap2 (fun a b => a - b) (priceReturn r.price_at_trade r.current_price) (priceReturn r.price_at_disclosure r.current_price) }

/-- WindowStats record from web/src/types.ts. -/
structure WindowStats where
  count : ℕ
  win_rate : ℚ
  avg_return : ℚ
  median_return : ℚ

deriving instance DecidableEq for WindowStats

/-- Modelled from the spec: §4.6 — aggregate the non-missing returns of one
horizon into `WindowStats`. -/
def mkWindowStats (returns : List ℚ) : WindowStats :=
  { count := returns.length
    win_rate :=
      if returns.length = 0 then 0
      else 100 * ((returns.filter fun r => decide (0 < r)).length : ℚ) / returns.length
    avg_return := if returns.length = 0 then 0 else returns.sum / returns.length
    median_return :=
      if returns.length = 0 then 0
      else (List.insertionSort (fun a b : ℚ => a ≤ b) returns).getD (returns.length / 2) 0 }

/-- The backtest's published per-trade result set. -/
def individualTrades (rs : List RawBT) : List BacktestTrade := rs.map mkBacktestTrade

/-- Modelled from the spec: §4.6 — `strategy_summary` for one horizon:
aggregate exactly the trades whose copycat return for that horizon is
present. -/
def strategySummary (rs : List RawBT) (w : Horizon) : WindowStats :=
  mkWindowStats ((individualTrades rs).filterMap fun t => getCopycatReturn t w)

/-- The recomputation described by the round-trip property: filter
`individual_trades` to the entries whose copycat return for the horizon is
non-missing and average those returns. -/
def recomputedAvg (trades : List BacktestTrade) (w : Horizon) : ℚ :=
  let kept := trades.filter fun t => (getCopycatReturn t w).isSome
  let vals := kept.filterMap fun t => getCopycatReturn t w
  vals.sum / vals.length

/-- PoliticianSummary record from web/src/types.ts: note that no
resolvable-trade count field exists — only `total_trades` (all trades). -/
@[ext]
structure PoliticianSummary where
  name : String
  party : String
  state : String
  chamber : Chamber
  total_trades : ℕ
  est_return_1y : ℚ
  win_rate : ℚ
  best_trade : Option (String × ℚ)
  worst_trade : Option (String × ℚ)
  total_volume_low : ℚ
  total_volume_high : ℚ

deriving instance DecidableEq for PoliticianSummary

/-- The estimated returns of the trades that have one. -/
def resolvableReturns (trades : List Trade) : List ℚ :=
  trades.filterMap fun t => t.est_return

/-- Number of trades with a resolvable estimated return. -/
def resolvableCount (trades : List Trade) : ℕ :=
  (resolvableReturns trades).length

/-- Fold step choosing the best resolvable trade (max return, ties broken by
most recent transaction date). -/
def pickBestStep (acc : Option (String × ℚ × List Char)) (t : Trade) : Option (String × ℚ × List Char) :=
  match t.est_return with
  | none => acc
  | some r =>
    match acc with
    | none => some (t.ticker, r, t.tx_date.data)
    | some (tk, br, bd) =>
      if decide (br < r) || (decide (br = r) && listLTb bd t.tx_date.data) then
        some (t.ticker, r, t.tx_date.data)
      else some (tk, br, bd)

/-- Fold step choosing the worst resolvable trade (min return, ties broken by
most recent transaction date). -/
def pickWorstStep (acc : Option (String × ℚ × List Char)) (t : Trade) : Option (String × ℚ × List Char) :=
  match t.est_return with
  | none => acc
  | some r =>
    match acc with
    | none => some (t.ticker, r, t.tx_date.data)
    | some (tk, br, bd) =>
      if decide (r < br) || (decide (br = r) && listLTb bd t.tx_date.data) then
        some (t.ticker, r, t.tx_date.data)
      else some (tk, br, bd)

/-- Modelled from the spec: §4.3 — best trade of a trader. -/
def pickBest (trades : List Trade) : Option (String × ℚ) :=
  (trades.foldl pickBestStep none).map fun p => (p.1, p.2.1)

/-- Modelled from the spec: §4.3 — worst trade of a trader. -/
def pickWorst (trades : List Trade) : Option (String × ℚ) :=
  (trades.foldl pickWorstStep none).map fun p => (p.1, p.2.1)

/-- Modelled from the spec: §4.3 Leaderboard Aggregator (the aggregation code
is in the Python scraper, not under src/; the record shape is the
`PoliticianSummary` interface of types.ts).  `cutoff` is the first day of the
most recent 12 months, compared against ISO date strings. -/
def summarize (name party state : String) (chamber : Chamber) (cutoff : List Char)
    (trades : List Trade) : PoliticianSummary :=
  { name := name
    party := party
    state := state
    chamber := chamber
    total_trades := trades.length
    est_return_1y :=
      let rr := (trades.filter fun t => listLEb cutoff t.tx_date.data).filterMap fun t => t.est_return
      if rr.length = 0 then 0 else rr.sum / rr.length
    win_rate :=
      let rets := resolvableReturns trades
      if rets.length = 0 then 0
      else 100 * ((rets.filter fun r => decide (0 < r)).length : ℚ) / rets.length
    best_trade := pickBest trades
    worst_trade := pickWorst trades
    total_volume_low := (trades.map fun t => t.amount_low).sum
    total_volume_high := (trades.map fun t => t.amount_high).sum }

/-- A concrete trade with no price enrichment (both prices and the estimated
return missing). -/
def tradeNoPrices : Trade :=
  { id := "t1"
    politician := "Jane Roe"
    party := "D"
    state := "CA"
    chamber := Chamber.house
    ticker := "TICK"
    asset_description := "Tick Inc common stock"
    asset_type := AssetType.stock
    tx_type := TxType.purchase
    tx_date := "2025-01-01"
    disclosure_date := "2025-01-10"
    amount_low := 1000
    amount_high := 15000
    owner := "self"
    filing_url := ""
    is_amended := false
    days_late := 9
    price_at_trade := none
    current_price := none
    est_return := none }

/-- The same trade but with a literal zero recorded as the price at trade. -/
def tradeZeroPrice : Trade := { tradeNoPrices with price_at_trade := some 0 }

/-- A concrete exchange trade. -/
def tradeExchange : Trade := { tradeNoPrices with id := "t3", tx_type := TxType.exchange }

/-- A concrete backtest input whose 90-day price is missing while the
disclosure-date, 30-day and current prices are present. -/
def rawMissing90 : RawBT :=
  { id := "b1"
    politician := "Jane Roe"
    party := "D"
    ticker := "TICK"
    asset_description := "Tick Inc common stock"
    tx_date := "2025-01-01"
    disclosure_date := "2025-01-10"
    days_late := 9
    amount_low := 1000
    amount_high := 15000
    price_at_trade := some 95
    price_at_disclosure := some 100
    price_30d := some 105
    price_90d := none
    current_price := some 120
    spy_at_disclosure := some 50
    spy_30d := some 51
    spy_90d := some 52
    spy_current := some 53 }

/-- A concrete trade whose estimated return is resolvable and literally 0%. -/
def tradeRetZero : Trade := { tradeNoPrices with id := "t4", est_return := some 0 }

/-- A second copy of the zero-return trade under another id. -/
def tradeRetZero2 : Trade := { tradeNoPrices with id := "t5", est_return := some 0 }

/-- Scenario trade: trader Alice (party D) buys on day 0. -/
def scTradeA : CTrade := { politician := "Alice".data, party := "D".data, tx_date := 0 }

/-- Scenario trade: trader Bob (party R) buys on day 4. -/
def scTradeB : CTrade := { politician := "Bob".data, party := "R".data, tx_date := 4 }

/-- Scenario trade: trader Carol (party D) buys on day 9. -/
def scTradeC : CTrade := { politician := "Carol".data, party := "D".data, tx_date := 9 }

/-- The three scenario trades in date order. -/
def scTrades : List CTrade := [scTradeA, scTradeB, scTradeC]

/-- The three scenario trades in a shuffled input order. -/
def scShuffled : List CTrade := [scTradeB, scTradeC, scTradeA]

/-- A concrete trade whose politician name contains two consecutive spaces. -/
def tDoubleSpace : Trade := { tradeNoPrices with id := "t6", politician := "A  B" }

/-- C1 counterexample: `addMockTrade` does not propagate a missing price — it
substitutes the sentinel 0, and the resulting MockTrade is identical to the
one built from a trade whose recorded price is literally 0, so the absence is
not representable downstream. -/
theorem addMockTrade_substitutes_zero :
    tradeNoPrices.price_at_trade = none ∧
    (mkMockTrade tradeNoPrices MockDirection.buy "" "m1" "2025-02-01").entry_price = 0 ∧
    mkMockTrade tradeNoPrices MockDirection.buy "" "m1" "2025-02-01"
      = mkMockTrade tradeZeroPrice MockDirection.buy "" "m1" "2025-02-01" ∧
    tradeZeroPrice.price_at_trade ≠ tradeNoPrices.price_at_trade := by
  refine ⟨rfl, rfl, ?_, by decide⟩
  rfl

/-- C1 amended: the Trade type keeps missing prices as first-class optional
values, but `addMockTrade` collapses them: a missing `price_at_trade` becomes
entry price 0, a missing `current_price` falls back to `price_at_trade` and
then to 0; present prices are copied through. -/
theorem mkMockTrade_price_semantics :
    ∀ (t : Trade) (d : MockDirection) (notes newId ts : String),
      (t.price_at_trade = none → (mkMockTrade t d notes newId ts).entry_price = 0) ∧
      (∀ p, t.price_at_trade = some p → (mkMockTrade t d notes newId ts).entry_price = p) ∧
      (t.current_price = none → t.price_at_trade = none →
        (mkMockTrade t d notes newId ts).current_price = 0) ∧
      (∀ p, t.current_price = some p → (mkMockTrade t d notes newId ts).current_price = p) ∧
      (∀ p, t.current_price = none → t.price_at_trade = some p →
        (mkMockTrade t d notes newId ts).current_price = p) := by
  intro t d notes newId ts
  refine ⟨?_, ?_, ?_, ?_, ?_⟩
  · intro h
    simp [mkMockTrade, h]
  · intro p h
    simp [mkMockTrade, h]
  · intro h1 h2
    simp [mkMockTrade, Option.orElse, h1, h2]
  · intro p h
    simp [mkMockTrade, Option.orElse, h]
  · intro p h1 h2
    simp [mkMockTrade, Option.orElse, h1, h2]

/-- C1 amended, witness at a concrete trade. -/
theorem mkMockTrade_price_semantics_witness :
    tradeNoPrices.price_at_trade = none ∧
    (mkMockTrade tradeNoPrices MockDirection.sell "n" "i" "c").entry_price = 0 ∧
    tradeZeroPrice.price_at_trade = some 0 ∧
    (mkMockTrade tradeZeroPrice MockDirection.sell "n" "i" "c").entry_price = 0 :=
  ⟨rfl, (mkMockTrade_price_semantics tradeNoPrices MockDirection.sell "n" "i" "c").1 rfl,
    rfl, (mkMockTrade_price_semantics tradeZeroPrice MockDirection.sell "n" "i" "c").2.1 0 rfl⟩

/-- C2: for a resolvable non-zero entry price, a purchase and an otherwise
identical full sale at the same two prices have estimated returns that are
exact negatives of each other; at prices 100 and 110 the purchase return is
10 and the sale return is −10. -/
theorem estimated_return_odd_under_flip :
    ∀ e n : ℚ, e ≠ 0 →
      ∃ r : ℚ, estimated_return (some e) (some n) TxType.purchase = some r ∧
        estimated_return (some e) (some n) TxType.sale_full = some (-r) ∧
        (e = 100 → n = 110 → r = 10) := by
  intro e n he
  refine ⟨(n / e - 1) * 100, ?_, ?_, ?_⟩
  · simp [estimated_return, directionSign, he]
  · simp [estimated_return, directionSign, he]
  · intro he2 hn2
    subst he2
    subst hn2
    norm_num

/-- C2 witness at the spec's scenario prices. -/
theorem estimated_return_odd_under_flip_witness :
    (100 : ℚ) ≠ 0 ∧
    ∃ r : ℚ, estimated_return (some 100) (some 110) TxType.purchase = some r ∧
      estimated_return (some 100) (some 110) TxType.sale_full = some (-r) ∧
      ((100 : ℚ) = 100 → (110 : ℚ) = 110 → r = 10) :=
  ⟨by norm_num, estimated_return_odd_under_flip 100 110 (by norm_num)⟩

/-- C7 counterexample: a party code outside the D, R, I enumeration flows
through `partyLabel`'s default branch unchanged — party values are handled as
open strings, not as a closed variant with exhaustive handling. -/
theorem partyLabel_open_string_counterexample :
    partyLabel "G" = "G" ∧
    partyLabel "G" ∉ (["Democrat", "Republican", "Independent"] : List String) := by
  constructor
  · decide
  · decide

/-- C7 amended: transaction kind and chamber are closed unions handled
exhaustively (the four kinds and two chambers each map to their label), but
party is an open string whose label function returns unknown codes
unchanged. -/
theorem closed_kinds_open_party :
    (txTypeLabel (txTypeStr TxType.purchase) = "Buy" ∧
     txTypeLabel (txTypeStr TxType.sale_full) = "Sell (Full)" ∧
     txTypeLabel (txTypeStr TxType.sale_partial) = "Sell (Partial)" ∧
     txTypeLabel (txTypeStr TxType.exchange) = "Exchange") ∧
    (chamberLabel Chamber.house = "House" ∧ chamberLabel Chamber.senate = "Senate") ∧
    (∀ p : String, toUpperStr p ≠ "D" → toUpperStr p ≠ "R" → toUpperStr p ≠ "I" →
      partyLabel p = p) := by
  refine ⟨⟨by decide, by decide, by decide, by decide⟩, ⟨rfl, rfl⟩, ?_⟩
  intro p h1 h2 h3
  simp [partyLabel, h1, h2, h3]

/-- C7 amended, witness at a concrete unknown party code. -/
theorem closed_kinds_open_party_witness :
    toUpperStr "Lib" ≠ "D" ∧ toUpperStr "Lib" ≠ "R" ∧ toUpperStr "Lib" ≠ "I" ∧
    partyLabel "Lib" = "Lib" :=
  ⟨by decide, by decide, by decide,
    closed_kinds_open_party.2.2 "Lib" (by decide) (by decide) (by decide)⟩

/-- C9: the transaction-type filter keeps exactly the purchases under "buy",
exactly the full and partial sales under "sell", everything under "all", and
an exchange trade is kept exactly when the filter is "all". -/
theorem filterTx_partitions :
    ∀ (trades : List Trade) (t : Trade),
      (t ∈ filterTx TxFilterOpt.buy trades ↔ t ∈ trades ∧ t.tx_type = TxType.purchase) ∧
      (t ∈ filterTx TxFilterOpt.sell trades ↔
        t ∈ trades ∧ (t.tx_type = TxType.sale_full ∨ t.tx_type = TxType.sale_partial)) ∧
      (filterTx TxFilterOpt.all trades = trades) ∧
      (t.tx_type = TxType.exchange →
        ∀ f, (t ∈ filterTx f trades ↔ t ∈ trades ∧ f = TxFilterOpt.all)) := by
  intro trades t
  refine ⟨?_, ?_, ?_, ?_⟩
  · simp [filterTx, List.mem_filter]
  · simp [filterTx, List.mem_filter]
  · simp [filterTx]
  · intro hx f
    cases f
    · simp [filterTx]
    · simp [filterTx, List.mem_filter, hx]
    · simp [filterTx, List.mem_filter, hx]

/-- C9 witness at a concrete exchange trade. -/
theorem filterTx_partitions_witness :
    tradeExchange.tx_type = TxType.exchange ∧
    (tradeExchange ∈ filterTx TxFilterOpt.buy [tradeExchange] ↔
      tradeExchange ∈ [tradeExchange] ∧ TxFilterOpt.buy = TxFilterOpt.all) :=
  ⟨rfl, (filterTx_partitions [tradeExchange] tradeExchange).2.2.2 rfl TxFilterOpt.buy⟩

/-- C10: `formatAmount` collapses a degenerate band to a single formatted
amount and otherwise joins both ends with a dash; amounts of at least one
million are rendered with an M suffix, amounts of at least one thousand and
below one million with a K suffix, showing one decimal exactly when the
scaled value is not whole. -/
theorem formatAmount_spec :
    (∀ a : ℚ, formatAmount a a = fmtAmount a) ∧
    (∀ a b : ℚ, a ≠ b → formatAmount a b = fmtAmount a ++ " - " ++ fmtAmount b) ∧
    (∀ n : ℚ, 1000000 ≤ n →
      ((n / 1000000).den = 1 → fmtAmount n = "$" ++ toString (n / 1000000).num ++ "M") ∧
      ((n / 1000000).den ≠ 1 → ∃ k d : ℤ, 0 ≤ d ∧ d < 10 ∧
        fmtAmount n = "$" ++ toString k ++ "." ++ toString d ++ "M")) ∧
    (∀ n : ℚ, 1000 ≤ n → n < 1000000 →
      ((n / 1000).den = 1 → fmtAmount n = "$" ++ toString (n / 1000).num ++ "K") ∧
      ((n / 1000).den ≠ 1 → ∃ k d : ℤ, 0 ≤ d ∧ d < 10 ∧
        fmtAmount n = "$" ++ toString k ++ "." ++ toString d ++ "K")) := by
  refine ⟨?_, ?_, ?_, ?_⟩
  · intro a
    simp [formatAmount]
  · intro a b h
    simp [formatAmount, h]
  · intro n hn
    constructor
    · intro hd
      simp [fmtAmount, hn, hd]
    · intro hd
      refine ⟨round (n / 1000000 * 10) / 10, round (n / 1000000 * 10) % 10,
        Int.emod_nonneg _ (by norm_num), Int.emod_lt_of_pos _ (by norm_num), ?_⟩
      simp [fmtAmount, fmtFixed1, hn, hd, String.append_assoc]
  · intro n hn hn2
    have hn3 : ¬ (1000000 : ℚ) ≤ n := not_le.mpr hn2
    constructor
    · intro hd
      simp [fmtAmount, hn, hn3, hd]
    · intro hd
      refine ⟨round (n / 1000 * 10) / 10, round (n / 1000 * 10) % 10,
        Int.emod_nonneg _ (by norm_num), Int.emod_lt_of_pos _ (by norm_num), ?_⟩
      simp [fmtAmount, fmtFixed1, hn, hn3, hd, String.append_assoc]

/-- C10 witness at concrete band values. -/
theorem formatAmount_spec_witness :
    (1000000 : ℚ) ≤ 1500000 ∧ ((1500000 : ℚ) / 1000000).den ≠ 1 ∧
    (∃ k d : ℤ, 0 ≤ d ∧ d < 10 ∧
      fmtAmount 1500000 = "$" ++ toString k ++ "." ++ toString d ++ "M") ∧
    (1000 : ℚ) ≤ 250000 ∧ (250000 : ℚ) < 1000000 ∧ ((250000 : ℚ) / 1000).den = 1 ∧
    fmtAmount 250000 = "$" ++ toString ((250000 : ℚ) / 1000).num ++ "K" ∧
    (5 : ℚ) ≠ 7 ∧ formatAmount 5 7 = fmtAmount 5 ++ " - " ++ fmtAmount 7 :=
  ⟨by norm_num, by norm_num,
    (formatAmount_spec.2.2.1 1500000 (by norm_num)).2 (by norm_num),
    by norm_num, by norm_num, by norm_num,
    (formatAmount_spec.2.2.2 250000 (by norm_num) (by norm_num)).1 (by norm_num),
    by norm_num, formatAmount_spec.2.1 5 7 (by norm_num)⟩

/-- Filtering a list to the entries whose image is present and then
extracting those images is the same as extracting directly. -/
theorem filterMap_filter_isSome {α β : Type} (f : α → Option β) :
    ∀ l : List α, (l.filter fun a => (f a).isSome).filterMap f = l.filterMap f := by
  intro l
  induction l with
  | nil => rfl
  | cons a l ih =>
    cases h : f a with
    | none => simp [List.filter_cons, List.filterMap_cons, h, ih]
    | some b => simp [List.filter_cons, List.filterMap_cons, h, ih]

/-- The number of present images equals the length of the filtered list. -/
theorem length_filterMap_eq_length_filter {α β : Type} (f : α → Option β) :
    ∀ l : List α, (l.filterMap f).length = (l.filter fun a => (f a).isSome).length := by
  intro l
  induction l with
  | nil => rfl
  | cons a l ih =>
    cases h : f a with
    | none => simp [List.filter_cons, List.filterMap_cons, h, ih]
    | some b => simp [List.filter_cons, List.filterMap_cons, h, ih]

/-- C4: for every backtest input and horizon, filtering the published
individual trades to the entries whose copycat return for that horizon is
non-missing and averaging them gives exactly the published
`WindowStats.avg_return` of that horizon. -/
theorem backtest_avg_roundtrip :
    ∀ (rs : List RawBT) (w : Horizon),
      recomputedAvg (individualTrades rs) w = (strategySummary rs w).avg_return := by
  intro rs w
  unfold recomputedAvg strategySummary mkWindowStats
  simp only [filterMap_filter_isSome]
  by_cases h : ((individualTrades rs).filterMap fun t => getCopycatReturn t w).length = 0
  · rw [List.length_eq_zero] at h
    simp [h]
  · rw [if_neg h]

/-- C6: a trade missing the price for one horizon is excluded only from that
horizon's statistics: each horizon's count is the number of individual trades
whose return for that horizon is present, and the concrete trade missing only
its 90-day price is counted in the 30-day and current summaries (and has
present 30-day return and alpha) while absent from the 90-day one (missing
90-day return and alpha). -/
theorem backtest_partial_exclusion :
    (∀ (rs : List RawBT) (w : Horizon),
      (strategySummary rs w).count =
        ((individualTrades rs).filter fun t => (getCopycatReturn t w).isSome).length) ∧
    ((getCopycatReturn (mkBacktestTrade rawMissing90) Horizon.d30).isSome = true ∧
     getCopycatReturn (mkBacktestTrade rawMissing90) Horizon.d90 = none ∧
     (getAlpha (mkBacktestTrade rawMissing90) Horizon.d30).isSome = true ∧
     getAlpha (mkBacktestTrade rawMissing90) Horizon.d90 = none ∧
     (strategySummary [rawMissing90] Horizon.d30).count = 1 ∧
     (strategySummary [rawMissing90] Horizon.d90).count = 0 ∧
     (strategySummary [rawMissing90] Horizon.current).count = 1) := by
  constructor
  · intro rs w
    unfold strategySummary mkWindowStats
    exact length_filterMap_eq_length_filter _ _
  · refine ⟨?_, ?_, ?_, ?_, ?_, ?_, ?_⟩ <;>
      norm_num [strategySummary, individualTrades, mkWindowStats, mkBacktestTrade,
        getCopycatReturn, getAlpha, priceReturn, omap2, rawMissing90,
        List.filterMap_cons, List.filterMap_nil]

/-- C5 counterexample: the published PoliticianSummary does not expose the
resolvable-trade count — two trade sets with different resolvable-trade
counts (1 vs 2, each with at least one resolvable trade) produce identical
summaries, so the count cannot be recovered from any published field,
refuting the claim that it is exposed. -/
theorem politicianSummary_hides_resolvable_count :
    summarize "Jane Roe" "D" "CA" Chamber.house ("2024-06-01".data)
        [tradeNoPrices, tradeRetZero]
      = summarize "Jane Roe" "D" "CA" Chamber.house ("2024-06-01".data)
        [tradeRetZero2, tradeRetZero] ∧
    resolvableCount [tradeNoPrices, tradeRetZero] = 1 ∧
    resolvableCount [tradeRetZero2, tradeRetZero] = 2 := by
  have hd : listLEb ("2024-06-01".data) ("2025-01-01".data) = true := by decide
  refine ⟨?_, by decide, by decide⟩
  apply PoliticianSummary.ext <;>
    first
      | rfl
      | decide
      | norm_num [summarize, resolvableReturns, tradeNoPrices, tradeRetZero, tradeRetZero2, hd,
          List.filter_cons, List.filterMap_cons]

/-- The best-trade fold yields nothing exactly when it starts from nothing
and no trade has a resolvable return. -/
theorem foldl_pickBestStep_eq_none :
    ∀ (l : List Trade) (acc : Option (String × ℚ × List Char)),
      l.foldl pickBestStep acc = none ↔ (acc = none ∧ ∀ t ∈ l, t.est_return = none) := by
  intro l
  induction l with
  | nil =>
    intro acc
    simp
  | cons t ts ih =>
    intro acc
    rw [List.foldl_cons, ih]
    constructor
    · rintro ⟨h1, h2⟩
      cases ht : t.est_return with
      | none =>
        have hacc : acc = none := by
          simpa [pickBestStep, ht] using h1
        refine ⟨hacc, ?_⟩
        intro u hu
        rcases List.mem_cons.mp hu with h | h
        · subst h
          exact ht
        · exact h2 u h
      | some r =>
        exfalso
        cases acc with
        | none => simp [pickBestStep, ht] at h1
        | some p =>
          rcases p with ⟨tk, br, bd⟩
          simp only [pickBestStep, ht] at h1
          split at h1 <;> simp_all
    · rintro ⟨h1, h2⟩
      have ht : t.est_return = none := h2 t (List.mem_cons_self t ts)
      subst h1
      refine ⟨?_, fun u hu => h2 u (List.mem_cons_of_mem t hu)⟩
      simp [pickBestStep, ht]

/-- C5 amended: win_rate lies in [0, 100] and is computed only over trades
with a resolvable return — it is 0 when no trade has one, and otherwise
equals 100 times the number of positive resolvable returns divided by the
resolvable-trade count.  That count is not itself part of the published
summary (see the counterexample), but the zero-resolvable case is still
distinguishable from a literal 0% win rate: best_trade is null exactly when
the politician has zero resolvable trades. -/
theorem win_rate_spec :
    ∀ (nm pty st : String) (ch : Chamber) (cutoff : List Char) (trades : List Trade),
      0 ≤ (summarize nm pty st ch cutoff trades).win_rate ∧
      (summarize nm pty st ch cutoff trades).win_rate ≤ 100 ∧
      (resolvableCount trades = 0 → (summarize nm pty st ch cutoff trades).win_rate = 0) ∧
      (resolvableCount trades ≠ 0 →
        (summarize nm pty st ch cutoff trades).win_rate =
          100 * (((resolvableReturns trades).filter fun r => decide (0 < r)).length : ℚ)
            / resolvableCount trades) ∧
      ((summarize nm pty st ch cutoff trades).best_trade = none ↔
        resolvableCount trades = 0) := by
  intro nm pty st ch cutoff trades
  have hbt : ((summarize nm pty st ch cutoff trades).best_trade = none ↔
      resolvableCount trades = 0) := by
    show pickBest trades = none ↔ resolvableCount trades = 0
    unfold pickBest
    rw [Option.map_eq_none', foldl_pickBestStep_eq_none]
    unfold resolvableCount resolvableReturns
    rw [List.length_eq_zero, List.filterMap_eq_nil_iff]
    simp
  have hwr : (summarize nm pty st ch cutoff trades).win_rate =
      if (resolvableReturns trades).length = 0 then 0
      else 100 * (((resolvableReturns trades).filter fun r => decide (0 < r)).length : ℚ)
        / (resolvableReturns trades).length := rfl
  by_cases h : (resolvableReturns trades).length = 0
  · rw [hwr, if_pos h]
    exact ⟨le_refl 0, by norm_num, fun _ => rfl, fun hc => absurd h hc, hbt⟩
  · have hm : (0 : ℚ) < ((resolvableReturns trades).length : ℚ) := by
      exact_mod_cast Nat.pos_of_ne_zero h
    have hk : (((resolvableReturns trades).filter fun r => decide (0 < r)).length : ℚ)
        ≤ ((resolvableReturns trades).length : ℚ) := by
      exact_mod_cast List.length_filter_le _ _
    have hk0 : (0 : ℚ) ≤ (((resolvableReturns trades).filter fun r => decide (0 < r)).length : ℚ) := by
      positivity
    rw [hwr, if_neg h]
    refine ⟨by positivity, ?_, fun hc => absurd hc h, fun _ => rfl, hbt⟩
    rw [div_le_iff₀ hm]
    nlinarith

/-- C5 amended, witness at concrete trade lists: a zero-resolvable politician
and a literal-0% politician, distinguished by their best_trade being null
versus present. -/
theorem win_rate_spec_witness :
    resolvableCount [tradeNoPrices] = 0 ∧
    (summarize "Jane Roe" "D" "CA" Chamber.house ("2024-06-01".data) [tradeNoPrices]).win_rate = 0 ∧
    resolvableCount [tradeRetZero] ≠ 0 ∧
    (summarize "Jane Roe" "D" "CA" Chamber.house ("2024-06-01".data) [tradeRetZero]).win_rate =
      100 * (((resolvableReturns [tradeRetZero]).filter fun r => decide (0 < r)).length : ℚ)
        / resolvableCount [tradeRetZero] ∧
    (summarize "Jane Roe" "D" "CA" Chamber.house ("2024-06-01".data) [tradeNoPrices]).best_trade
      = none ∧
    (summarize "Jane Roe" "D" "CA" Chamber.house ("2024-06-01".data) [tradeRetZero]).best_trade
      ≠ none :=
  ⟨by decide,
    (win_rate_spec "Jane Roe" "D" "CA" Chamber.house ("2024-06-01".data) [tradeNoPrices]).2.2.1
      (by decide),
    by decide,
    (win_rate_spec "Jane Roe" "D" "CA" Chamber.house ("2024-06-01".data) [tradeRetZero]).2.2.2.1
      (by decide),
    ((win_rate_spec "Jane Roe" "D" "CA" Chamber.house ("2024-06-01".data) [tradeNoPrices]).2.2.2.2).mpr
      (by decide),
    fun hn =>
      absurd
        (((win_rate_spec "Jane Roe" "D" "CA" Chamber.house ("2024-06-01".data) [tradeRetZero]).2.2.2.2).mp hn)
        (by decide)⟩

/-- Characters with equal code points are equal. -/
theorem char_toNat_inj {a b : Char} (h : a.toNat = b.toNat) : a = b := by
  apply Char.ext
  exact UInt32.toNat.inj h

/-- Lowercasing an upper-case latin letter adds 32 to its code point. -/
theorem toNat_toLower_of_upper {c : Char} (h1 : 65 ≤ c.toNat) (h2 : c.toNat ≤ 90) :
    (Char.toLower c).toNat = c.toNat + 32 := by
  unfold Char.toLower
  rw [if_pos ⟨h1, h2⟩]
  have hv : (c.toNat + 32).isValidChar := Or.inl (by omega)
  rw [Char.ofNat, dif_pos hv]
  simp [Char.ofNatAux, Char.toNat, UInt32.toNat]

/-- Lowercasing fixes everything outside the upper-case latin range. -/
theorem toLower_eq_self {c : Char} (h : ¬(65 ≤ c.toNat ∧ c.toNat ≤ 90)) :
    Char.toLower c = c := by
  unfold Char.toLower
  rw [if_neg h]

/-- Lowercasing is idempotent. -/
theorem toLower_idem (c : Char) : Char.toLower (Char.toLower c) = Char.toLower c := by
  by_cases h : 65 ≤ c.toNat ∧ c.toNat ≤ 90
  · have h1 := toNat_toLower_of_upper h.1 h.2
    apply toLower_eq_self
    omega
  · rw [toLower_eq_self h, toLower_eq_self h]

/-- Membership of the whitespace class depends only on the code point. -/
theorem isWsChar_iff {c : Char} :
    isWsChar c = true ↔ (c.toNat = 32 ∨ c.toNat = 9 ∨ c.toNat = 13 ∨ c.toNat = 10) := by
  simp [isWsChar]
  tauto

/-- Lowercasing does not change whether a character is whitespace. -/
theorem isWsChar_toLower (c : Char) : isWsChar (Char.toLower c) = isWsChar c := by
  by_cases h : 65 ≤ c.toNat ∧ c.toNat ≤ 90
  · have h1 := toNat_toLower_of_upper h.1 h.2
    have hl : isWsChar (Char.toLower c) = false := by
      rw [Bool.eq_false_iff]
      intro hw
      rw [isWsChar_iff] at hw
      omega
    have hr : isWsChar c = false := by
      rw [Bool.eq_false_iff]
      intro hw
      rw [isWsChar_iff] at hw
      omega
    rw [hl, hr]
  · rw [toLower_eq_self h]

/-- Lowercasing sends no non-hyphen to a hyphen. -/
theorem toLower_ne_dash {c : Char} (h : c ≠ dashChar) : Char.toLower c ≠ dashChar := by
  by_cases hu : 65 ≤ c.toNat ∧ c.toNat ≤ 90
  · have h1 := toNat_toLower_of_upper hu.1 hu.2
    intro he
    have : (Char.toLower c).toNat = dashChar.toNat := by rw [he]
    have hdn : dashChar.toNat = 45 := by decide
    omega
  · rw [toLower_eq_self hu]
    exact h

/-- Lowercasing sends no non-whitespace character to a space. -/
theorem toLower_ne_space {c : Char} (h : isWsChar c = false) : Char.toLower c ≠ spaceChar := by
  by_cases hu : 65 ≤ c.toNat ∧ c.toNat ≤ 90
  · have h1 := toNat_toLower_of_upper hu.1 hu.2
    intro he
    have : (Char.toLower c).toNat = spaceChar.toNat := by rw [he]
    have hsn : spaceChar.toNat = 32 := by decide
    omega
  · rw [toLower_eq_self hu]
    intro he
    subst he
    rw [show isWsChar spaceChar = true from by decide] at h
    exact absurd h (by simp)

/-- In a tame name every whitespace character is a plain space. -/
theorem goodWsB_mem {l : List Char} (hg : goodWsB l = true) :
    ∀ c ∈ l, isWsChar c = true → c = spaceChar := by
  induction l with
  | nil => intro c hc; cases hc
  | cons a l ih =>
    rw [goodWsB, Bool.and_eq_true] at hg
    intro c hc hw
    rcases List.mem_cons.mp hc with h | h
    · subst h
      rcases Bool.or_eq_true _ _ |>.mp hg.1 with h1 | h1
      · rw [hw] at h1
        exact absurd h1 (by simp)
      · exact of_decide_eq_true (Bool.and_eq_true _ _ |>.mp h1).1
    · exact ih hg.2 c h hw

/-- Lowercasing preserves tameness of whitespace. -/
theorem goodWsB_lowerStr {l : List Char} (hg : goodWsB l = true) :
    goodWsB (lowerStr l) = true := by
  induction l with
  | nil => rfl
  | cons a l ih =>
    rw [goodWsB, Bool.and_eq_true] at hg
    rw [lowerStr, List.map_cons, goodWsB, Bool.and_eq_true]
    refine ⟨?_, ih hg.2⟩
    rcases Bool.or_eq_true _ _ |>.mp hg.1 with h1 | h1
    · apply Bool.or_eq_true _ _ |>.mpr
      left
      rw [isWsChar_toLower]
      exact h1
    · rcases Bool.and_eq_true _ _ |>.mp h1 with ⟨h2, h3⟩
      have ha : a = spaceChar := of_decide_eq_true h2
      subst ha
      apply Bool.or_eq_true _ _ |>.mpr
      right
      apply Bool.and_eq_true _ _ |>.mpr
      constructor
      · rw [show Char.toLower spaceChar = spaceChar from by decide]
        exact decide_eq_true rfl
      · cases l with
        | nil => exact h3
        | cons b bs =>
          rw [headIsWs] at h3
          rw [List.map_cons, headIsWs, isWsChar_toLower]
          exact h3

/-- On a tame list the whitespace-run collapse acts pointwise: each space
becomes a hyphen and everything else is unchanged. -/
theorem collapseWsAux_of_goodWs {l : List Char} (hg : goodWsB l = true) :
    ∀ b : Bool, (b = true → headIsWs l = false) →
      collapseWsAux b l = l.map fun c => if c = spaceChar then dashChar else c := by
  induction l with
  | nil => intro b _; rfl
  | cons a l ih =>
    rw [goodWsB, Bool.and_eq_true] at hg
    intro b hb
    by_cases hw : isWsChar a = true
    · rcases Bool.or_eq_true _ _ |>.mp hg.1 with h1 | h1
      · rw [hw] at h1
        exact absurd h1 (by simp)
      · rcases Bool.and_eq_true _ _ |>.mp h1 with ⟨h2, h3⟩
        have ha : a = spaceChar := of_decide_eq_true h2
        have hbf : b = false := by
          cases b with
          | false => rfl
          | true =>
            have := hb rfl
            rw [headIsWs, hw] at this
            exact absurd this (by simp)
        subst hbf
        rw [collapseWsAux, if_pos hw, if_neg (by simp)]
        rw [List.map_cons, ha, if_pos rfl]
        rw [ih hg.2 true fun _ => by
          rw [Bool.eq_false_iff]
          intro hh
          rw [Bool.not_eq_true'] at h3
          rw [h3] at hh
          exact Bool.false_ne_true hh]
    · rw [collapseWsAux, if_neg hw]
      have ha : a ≠ spaceChar := by
        intro he
        subst he
        rw [show isWsChar spaceChar = true from by decide] at hw
        exact hw rfl
      rw [List.map_cons, if_neg ha]
      rw [ih hg.2 false (by intro h; exact absurd h (by simp))]

/-- One character's journey through slug and de-slug: lowercase, space to
hyphen, lowercase, hyphen to space — lands back at its lowercase form,
provided it is not a hyphen and its whitespace form is a plain space. -/
theorem slug_char_roundtrip {c : Char} (hdc : c ≠ dashChar)
    (hsp : isWsChar c = true → c = spaceChar) :
    (fun x => if x = dashChar then spaceChar else x)
      (Char.toLower ((fun x => if x = spaceChar then dashChar else x) (Char.toLower c)))
      = Char.toLower c := by
  by_cases hws : isWsChar c = true
  · have hc := hsp hws
    subst hc
    decide
  · have hf : isWsChar c = false := Bool.eq_false_iff.mpr hws
    have h1 : Char.toLower c ≠ spaceChar := toLower_ne_space hf
    simp only [if_neg h1]
    rw [toLower_idem]
    have h2 : Char.toLower c ≠ dashChar := toLower_ne_dash hdc
    rw [if_neg h2]

/-- De-slugging a slug of a hyphen-free, tamely spaced name recovers the
lowercased name. -/
theorem normalizeSlug_nameSlug {name : List Char} (hd : dashChar ∉ name)
    (hg : goodWsB name = true) :
    normalizeSlug (nameSlug name) = lowerStr name := by
  have hcol : collapseWs (lowerStr name)
      = (lowerStr name).map fun c => if c = spaceChar then dashChar else c := by
    apply collapseWsAux_of_goodWs (goodWsB_lowerStr hg) false
    intro h
    exact absurd h (by simp)
  unfold nameSlug
  rw [hcol]
  unfold normalizeSlug lowerStr
  rw [List.map_map, List.map_map, List.map_map]
  apply List.map_congr_left
  intro c hc
  simp only [Function.comp]
  exact slug_char_roundtrip (fun he => hd (he ▸ hc)) (fun hw => goodWsB_mem hg c hc hw)

/-- The de-slugged name never contains a hyphen. -/
theorem dash_not_mem_normalizeSlug (s : List Char) : dashChar ∉ normalizeSlug s := by
  unfold normalizeSlug
  intro hm
  rcases List.mem_map.mp hm with ⟨c, hc, he⟩
  by_cases h : c = dashChar
  · rw [if_pos h] at he
    exact absurd he (by decide)
  · rw [if_neg h] at he
    exact h he

/-- Lowercasing keeps hyphens. -/
theorem dash_mem_lowerStr {name : List Char} (h : dashChar ∈ name) : dashChar ∈ lowerStr name := by
  unfold lowerStr
  refine List.mem_map.mpr ⟨dashChar, h, ?_⟩
  decide

/-- C8 amended: for a politician name without hyphens whose whitespace is
single plain spaces, looking up the name's slug returns exactly the trades
whose politician equals the name case-insensitively; for a name containing a
hyphen the slug inversion does not recover the name and the lookup returns no
trade of that politician. -/
theorem usePoliticianTrades_slug_roundtrip :
    ∀ (name : List Char) (trades : List Trade),
      (dashChar ∉ name → goodWsB name = true →
        usePoliticianTrades trades (nameSlug name)
          = trades.filter fun t => decide (lowerStr t.politician.data = lowerStr name)) ∧
      (dashChar ∈ name →
        normalizeSlug (nameSlug name) ≠ lowerStr name ∧
        ∀ t ∈ usePoliticianTrades trades (nameSlug name),
          lowerStr t.politician.data ≠ lowerStr name) := by
  intro name trades
  constructor
  · intro hd hg
    unfold usePoliticianTrades
    rw [normalizeSlug_nameSlug hd hg]
  · intro hdm
    have hne : normalizeSlug (nameSlug name) ≠ lowerStr name := by
      intro he
      exact dash_not_mem_normalizeSlug (nameSlug name) (he ▸ dash_mem_lowerStr hdm)
    refine ⟨hne, ?_⟩
    intro t ht hpol
    have hmem := List.mem_filter.mp ht
    have : lowerStr t.politician.data = normalizeSlug (nameSlug name) :=
      of_decide_eq_true hmem.2
    exact hne (this ▸ hpol)

/-- C8 amended, witness: a plain name round-trips; a hyphenated name does
not survive the slug inversion. -/
theorem usePoliticianTrades_slug_roundtrip_witness :
    dashChar ∉ ("Jane Roe".data) ∧ goodWsB ("Jane Roe".data) = true ∧
    usePoliticianTrades [tradeNoPrices] (nameSlug ("Jane Roe".data))
      = [tradeNoPrices].filter
          (fun t => decide (lowerStr t.politician.data = lowerStr ("Jane Roe".data))) ∧
    dashChar ∈ ("Mary-Jane Smith".data) ∧
    normalizeSlug (nameSlug ("Mary-Jane Smith".data)) ≠ lowerStr ("Mary-Jane Smith".data) :=
  ⟨by decide, by decide,
    (usePoliticianTrades_slug_roundtrip ("Jane Roe".data) [tradeNoPrices]).1
      (by decide) (by decide),
    by decide,
    ((usePoliticianTrades_slug_roundtrip ("Mary-Jane Smith".data) [tradeNoPrices]).2
      (by decide)).1⟩

/-- C8 counterexample: the name "A  B" contains no hyphen, and the trade of
politician "A  B" matches it case-insensitively, yet looking up its slug
returns nothing — consecutive whitespace is collapsed by the slug and not
restored by the inverse mapping. -/
theorem nameSlug_roundtrip_counterexample :
    dashChar ∉ ("A  B".data) ∧
    lowerStr (tDoubleSpace.politician.data) = lowerStr ("A  B".data) ∧
    usePoliticianTrades [tDoubleSpace] (nameSlug ("A  B".data)) = [] := by
  refine ⟨by decide, by decide, by decide⟩

/-- The lexicographic comparison is total. -/
theorem listLEb_total : ∀ a b : List Char, listLEb a b = true ∨ listLEb b a = true := by
  intro a
  induction a with
  | nil => intro b; left; rfl
  | cons c cs ih =>
    intro b
    cases b with
    | nil => right; rfl
    | cons d ds =>
      rcases lt_trichotomy c d with h | h | h
      · left
        rw [listLEb, if_pos h]
      · subst h
        rcases ih ds with h2 | h2
        · left
          rw [listLEb, if_neg (lt_irrefl c), if_neg (lt_irrefl c)]
          exact h2
        · right
          rw [listLEb, if_neg (lt_irrefl c), if_neg (lt_irrefl c)]
          exact h2
      · right
        rw [listLEb, if_pos h]

/-- The lexicographic comparison is transitive. -/
theorem listLEb_trans :
    ∀ a b c : List Char, listLEb a b = true → listLEb b c = true → listLEb a c = true := by
  intro a
  induction a with
  | nil => intro b c _ _; rfl
  | cons x xs ih =>
    intro b c hab hbc
    cases b with
    | nil => exact absurd hab (by rw [listLEb]; simp)
    | cons y ys =>
      cases c with
      | nil => exact absurd hbc (by rw [listLEb]; simp)
      | cons z zs =>
        by_cases h1 : x < y
        · by_cases h2 : y < z
          · rw [listLEb, if_pos (lt_trans h1 h2)]
          · by_cases h3 : z < y
            · rw [listLEb, if_neg h2, if_pos h3] at hbc
              exact absurd hbc (by simp)
            · have hyz : y = z := le_antisymm (not_lt.mp h3) (not_lt.mp h2)
              subst hyz
              rw [listLEb, if_pos h1]
        · by_cases h1b : y < x
          · rw [listLEb, if_neg h1, if_pos h1b] at hab
            exact absurd hab (by simp)
          · have hxy : x = y := le_antisymm (not_lt.mp h1b) (not_lt.mp h1)
            subst hxy
            rw [listLEb, if_neg (lt_irrefl x), if_neg (lt_irrefl x)] at hab
            by_cases h2 : x < z
            · rw [listLEb, if_pos h2]
            · by_cases h3 : z < x
              · rw [listLEb, if_neg h2, if_pos h3] at hbc
                exact absurd hbc (by simp)
              · have hxz : x = z := le_antisymm (not_lt.mp h3) (not_lt.mp h2)
                subst hxz
                rw [listLEb, if_neg (lt_irrefl x), if_neg (lt_irrefl x)] at hbc
                rw [listLEb, if_neg (lt_irrefl x), if_neg (lt_irrefl x)]
                exact ih ys zs hab hbc

/-- The lexicographic comparison is antisymmetric. -/
theorem listLEb_antisymm :
    ∀ a b : List Char, listLEb a b = true → listLEb b a = true → a = b := by
  intro a
  induction a with
  | nil =>
    intro b _ hba
    cases b with
    | nil => rfl
    | cons d ds => exact absurd hba (by rw [listLEb]; simp)
  | cons x xs ih =>
    intro b hab hba
    cases b with
    | nil => exact absurd hab (by rw [listLEb]; simp)
    | cons y ys =>
      by_cases h1 : x < y
      · rw [listLEb, if_neg (asymm h1), if_pos h1] at hba
        exact absurd hba (by simp)
      · by_cases h2 : y < x
        · rw [listLEb, if_neg h1, if_pos h2] at hab
          exact absurd hab (by simp)
        · have hxy : x = y := le_antisymm (not_lt.mp h2) (not_lt.mp h1)
          subst hxy
          rw [listLEb, if_neg (lt_irrefl x), if_neg (lt_irrefl x)] at hab hba
          rw [ih ys hab hba]

/-- The detector's sort key is total. -/
theorem ctle_total : ∀ a b : CTrade, ctle a b ∨ ctle b a := by
  intro a b
  unfold ctle ctLEb
  rcases lt_trichotomy a.tx_date b.tx_date with h | h | h
  · left
    rw [if_pos h]
  · have hd1 : ¬ a.tx_date < b.tx_date := by omega
    have hd2 : ¬ b.tx_date < a.tx_date := by omega
    rcases listLEb_total a.politician b.politician with hp | hp
    · by_cases hp2 : listLEb b.politician a.politician = true
      · rcases listLEb_total a.party b.party with hq | hq
        · left
          rw [if_neg hd1, if_neg hd2, if_pos hp, if_pos hp2]
          exact hq
        · right
          rw [if_neg hd2, if_neg hd1, if_pos hp2, if_pos hp]
          exact hq
      · left
        rw [if_neg hd1, if_neg hd2, if_pos hp, if_neg hp2]
    · by_cases hp2 : listLEb a.politician b.politician = true
      · rcases listLEb_total a.party b.party with hq | hq
        · left
          rw [if_neg hd1, if_neg hd2, if_pos hp2, if_pos hp]
          exact hq
        · right
          rw [if_neg hd2, if_neg hd1, if_pos hp, if_pos hp2]
          exact hq
      · right
        rw [if_neg hd2, if_neg hd1, if_pos hp, if_neg hp2]
  · right
    rw [if_pos h]

/-- Transitivity of the name-then-party lexicographic tail of the sort key. -/
theorem polLex_trans {pa pb pc qa qb qc : List Char}
    (hab : (if listLEb pa pb = true then
        (if listLEb pb pa = true then listLEb qa qb else true) else false) = true)
    (hbc : (if listLEb pb pc = true then
        (if listLEb pc pb = true then listLEb qb qc else true) else false) = true) :
    (if listLEb pa pc = true then
        (if listLEb pc pa = true then listLEb qa qc else true) else false) = true := by
  by_cases hp1 : listLEb pa pb = true
  · by_cases hp3 : listLEb pb pc = true
    · rw [if_pos hp1] at hab
      rw [if_pos hp3] at hbc
      have hac := listLEb_trans _ _ _ hp1 hp3
      rw [if_pos hac]
      by_cases hca : listLEb pc pa = true
      · rw [if_pos hca]
        have hcb := listLEb_trans _ _ _ hca hp1
        have hba := listLEb_trans _ _ _ hp3 hca
        rw [if_pos hba] at hab
        rw [if_pos hcb] at hbc
        exact listLEb_trans _ _ _ hab hbc
      · rw [if_neg hca]
    · rw [if_neg hp3] at hbc
      exact absurd hbc (by simp)
  · rw [if_neg hp1] at hab
    exact absurd hab (by simp)

/-- The detector's sort key is transitive. -/
theorem ctle_trans : ∀ a b c : CTrade, ctle a b → ctle b c → ctle a c := by
  intro a b c hab hbc
  unfold ctle ctLEb at hab hbc ⊢
  by_cases h1 : a.tx_date < b.tx_date
  · by_cases h2 : b.tx_date < c.tx_date
    · rw [if_pos (lt_trans h1 h2)]
    · by_cases h3 : c.tx_date < b.tx_date
      · rw [if_neg h2, if_pos h3] at hbc
        exact absurd hbc (by simp)
      · rw [if_pos (by omega : a.tx_date < c.tx_date)]
  · by_cases h1b : b.tx_date < a.tx_date
    · rw [if_neg h1, if_pos h1b] at hab
      exact absurd hab (by simp)
    · have hdab : a.tx_date = b.tx_date := by omega
      rw [if_neg h1, if_neg h1b] at hab
      by_cases h2 : b.tx_date < c.tx_date
      · rw [if_pos (by omega : a.tx_date < c.tx_date)]
      · by_cases h3 : c.tx_date < b.tx_date
        · rw [if_neg h2, if_pos h3] at hbc
          exact absurd hbc (by simp)
        · rw [if_neg h2, if_neg h3] at hbc
          rw [if_neg (by omega : ¬ a.tx_date < c.tx_date),
            if_neg (by omega : ¬ c.tx_date < a.tx_date)]
          exact polLex_trans hab hbc

/-- The detector's sort key is antisymmetric. -/
theorem ctle_antisymm : ∀ a b : CTrade, ctle a b → ctle b a → a = b := by
  intro a b hab hba
  unfold ctle ctLEb at hab hba
  by_cases h1 : a.tx_date < b.tx_date
  · rw [if_neg (by omega : ¬ b.tx_date < a.tx_date), if_pos h1] at hba
    exact absurd hba (by simp)
  · by_cases h2 : b.tx_date < a.tx_date
    · rw [if_neg h1, if_pos h2] at hab
      exact absurd hab (by simp)
    · have hd : a.tx_date = b.tx_date := by omega
      rw [if_neg h1, if_neg h2] at hab
      rw [if_neg h2, if_neg h1] at hba
      by_cases hp1 : listLEb a.politician b.politician = true
      · by_cases hp2 : listLEb b.politician a.politician = true
        · rw [if_pos hp1, if_pos hp2] at hab
          rw [if_pos hp2, if_pos hp1] at hba
          have hpol : a.politician = b.politician := listLEb_antisymm _ _ hp1 hp2
          have hpty : a.party = b.party := listLEb_antisymm _ _ hab hba
          ext
          · rw [hpol]
          · rw [hpty]
          · rw [hd]
        · rw [if_neg hp2] at hba
          exact absurd hba (by simp)
      · rw [if_neg hp1] at hab
        exact absurd hab (by simp)

/-- Sorting a ticker group is canonical: any two permutations of the same
trade multiset sort to the same list. -/
theorem sortTrades_eq_of_perm {l₁ l₂ : List CTrade} (h : l₁.Perm l₂) :
    sortTrades l₁ = sortTrades l₂ := by
  haveI ht : IsTotal CTrade ctle := ⟨ctle_total⟩
  haveI htr : IsTrans CTrade ctle := ⟨ctle_trans⟩
  haveI has : IsAntisymm CTrade ctle := ⟨ctle_antisymm⟩
  exact List.eq_of_perm_of_sorted
    ((List.perm_insertionSort ctle l₁).trans (h.trans (List.perm_insertionSort ctle l₂).symm))
    (List.sorted_insertionSort ctle l₁) (List.sorted_insertionSort ctle l₂)

/-- The clusters produced by the fold concatenate back to its input. -/
theorem join_clusterAux (w : ℤ) :
    ∀ (rest : List CTrade) (s : ℤ) (cur : List CTrade),
      (clusterAux w s cur rest).flatten = cur.reverse ++ rest := by
  intro rest
  induction rest with
  | nil =>
    intro s cur
    simp [clusterAux]
  | cons t ts ih =>
    intro s cur
    rw [clusterAux]
    by_cases h : t.tx_date - s ≤ w
    · rw [if_pos h, ih]
      simp
    · rw [if_neg h]
      simp [List.flatten, ih]

/-- The cluster scan partitions the sorted group: its clusters concatenate
back to the input list. -/
theorem join_clusterScan (w : ℤ) (l : List CTrade) : (clusterScan w l).flatten = l := by
  cases l with
  | nil => rfl
  | cons t ts =>
    rw [clusterScan, join_clusterAux]
    simp

/-- Dropping clusters can only lower each trade's multiplicity in the
concatenation. -/
theorem count_join_sublist {s t : List (List CTrade)} (h : s.Sublist t) (x : CTrade) :
    (s.flatten).count x ≤ (t.flatten).count x := by
  induction h with
  | slnil => exact le_refl _
  | cons a h ih =>
    rw [List.flatten_cons, List.count_append]
    omega
  | cons₂ a h ih =>
    rw [List.flatten_cons, List.flatten_cons, List.count_append, List.count_append]
    omega

/-- C3: every emitted signal cluster has at least 3 distinct traders; no
trade occurs in the emitted clusters more often than in the input (so each
trade instance belongs to at most one cluster of its ticker); and detection
is independent of the input order of the ticker's trade set. -/
theorem signal_detector_invariants :
    ∀ (w : ℤ) (l₁ l₂ : List CTrade), l₁.Perm l₂ →
      (∀ c ∈ detectSignals w l₁, 3 ≤ distinctTraders c) ∧
      (∀ t : CTrade, ((detectSignals w l₁).flatten).count t ≤ l₁.count t) ∧
      detectSignals w l₁ = detectSignals w l₂ := by
  intro w l₁ l₂ hperm
  refine ⟨?_, ?_, ?_⟩
  · intro c hc
    exact of_decide_eq_true (List.mem_filter.mp hc).2
  · intro t
    have hsub : (detectSignals w l₁).Sublist (clusterScan w (sortTrades l₁)) :=
      List.filter_sublist _
    calc ((detectSignals w l₁).flatten).count t
        ≤ ((clusterScan w (sortTrades l₁)).flatten).count t := count_join_sublist hsub t
      _ = (sortTrades l₁).count t := by rw [join_clusterScan]
      _ = l₁.count t := (List.perm_insertionSort ctle l₁).count_eq t
  · unfold detectSignals
    rw [sortTrades_eq_of_perm hperm]

/-- C3 witness: the spec's scenario — three distinct traders of ticker TICK
on days 0, 4 and 9 with a 10-day window, fed in a shuffled order, produce
exactly one signal cluster holding all three trades, identical to the one
produced from the date-ordered input. -/
theorem signal_detector_invariants_witness :
    scShuffled.Perm scTrades ∧
    ((∀ c ∈ detectSignals 10 scShuffled, 3 ≤ distinctTraders c) ∧
     (∀ t : CTrade, ((detectSignals 10 scShuffled).flatten).count t ≤ scShuffled.count t) ∧
     detectSignals 10 scShuffled = detectSignals 10 scTrades) ∧
    detectSignals 10 scShuffled = [[scTradeA, scTradeB, scTradeC]] ∧
    distinctTraders [scTradeA, scTradeB, scTradeC] = 3 :=
  ⟨by decide, signal_detector_invariants 10 scShuffled scTrades (by decide), by decide, by decide⟩
